import Mathlib

/-!
Verification of the orbital-mechanics transformation library `orbitalMotion.c`
(anomaly conversions, classical-element / Cartesian-state transformations and
perturbation models) against its natural-language specification.

Machine doubles are embedded as exact real numbers (`ℝ`), except for the
`Debye` model whose arithmetic is purely rational and is embedded over `ℚ`
to keep it executable.  The `NAN` sentinel of the C code is embedded as
`Option.none`; an out-of-bounds table read (undefined behaviour in C) is a
separate constructor of `DebyeResult`.
-/

namespace OrbitalMotion

/-! ## Debye-length model (rational arithmetic, fully executable)

`Debye` in `orbitalMotion.c` interpolates a fixed 37-sample table.  All of
its arithmetic is exact decimal arithmetic, so it is embedded over `ℚ`. -/

/-- Modelled from the spec: `N_DEBYE_PARAMETERS` is defined in the missing
`orbitalMotion.h` header; the spec fixes the table at 37 samples. -/
def N_DEBYE_PARAMETERS : ℕ := 37

/-- The altitude samples `X` of `Debye` (km), copied from the source. -/
def debyeX : List ℚ :=
  [200, 250, 300, 350, 400, 450, 500, 550,
   600, 650, 700, 750, 800, 850, 900, 950, 1000, 1050, 1100, 1150,
   1200, 1250, 1300, 1350, 1400, 1450, 1500, 1550, 1600, 1650, 1700,
   1750, 1800, 1850, 1900, 1950, 2000]

/-- The Debye-length samples `Y` of `Debye` (m), copied from the source. -/
def debyeY : List ℚ :=
  [5.64e-3, 3.92e-3, 3.24e-3, 3.59e-3,
   4.04e-3, 4.28e-3, 4.54e-3, 5.30e-3, 6.55e-3, 7.30e-3, 8.31e-3,
   8.38e-3, 8.45e-3, 9.84e-3, 1.22e-2, 1.37e-2, 1.59e-2, 1.75e-2,
   1.95e-2, 2.09e-2, 2.25e-2, 2.25e-2, 2.25e-2, 2.47e-2, 2.76e-2,
   2.76e-2, 2.76e-2, 2.76e-2, 2.76e-2, 2.76e-2, 2.76e-2, 3.21e-2,
   3.96e-2, 3.96e-2, 3.96e-2, 3.96e-2, 3.96e-2]

/-- The linear search `for(i = 0; i < N-1; i++) if (X[i+1] > alt) break;` of
`Debye`: the first `i < 36` with `X[i+1] > alt`, and `36` when the break
condition never fires (the loop then runs to completion leaving `i = 36`).
The reads `X[i+1]` performed *during* the search are always in bounds
(`i + 1 ≤ 36`), so they are embedded with a total lookup. -/
def debyeIndex (alt : ℚ) : ℕ :=
  (((List.range (N_DEBYE_PARAMETERS - 1)).find?
      (fun i => decide (debyeX.getD (i + 1) 0 > alt))).getD (N_DEBYE_PARAMETERS - 1))

/-- Result of the embedded `Debye`: the returned value, the `NAN` sentinel of
the C code, or an out-of-bounds table read (undefined behaviour in C). -/
inductive DebyeResult where
  | nan : DebyeResult
  | oob : DebyeResult
  | val : ℚ → DebyeResult
deriving DecidableEq

/-- The interpolation tail of `Debye`:
`a = (alt - X[i])/(X[i+1] - X[i]); debye = Y[i] + a*(Y[i+1] - Y[i])`.
The four table reads use `Option`-indexing; if any is out of bounds the
result is `DebyeResult.oob`. -/
def debyeInterp (alt : ℚ) : DebyeResult :=
  let i := debyeIndex alt
  match debyeX.get? i, debyeX.get? (i + 1), debyeY.get? i, debyeY.get? (i + 1) with
  | some xi, some xi1, some yi, some yi1 =>
      DebyeResult.val (yi + (alt - xi) / (xi1 - xi) * (yi1 - yi))
  | _, _, _, _ => DebyeResult.oob

/-- Embedding of `Debye(alt)` from `orbitalMotion.c`: clamp to 2000 km on `(2000, 30000]`,
linear extrapolation on `(30000, 35000]`, `NAN` outside `[200, 35000]`,
otherwise table interpolation. -/
def Debye (alt : ℚ) : DebyeResult :=
  if 2000 < alt ∧ alt ≤ 30000 then debyeInterp 2000
  else if 30000 < alt ∧ alt ≤ 35000 then DebyeResult.val (0.1 * alt - 2999.7)
  else if alt < 200 ∨ 35000 < alt then DebyeResult.nan
  else debyeInterp alt

/-! ## Real-valued part of the library -/

noncomputable section

/-- Modelled from the spec: 3-component real vector (the `vector3D.h`
primitives are not under `src/`; §4.1 of the spec documents them). -/
@[ext]
structure Vec3 where
  x : ℝ
  y : ℝ
  z : ℝ

/-- Modelled from the spec: dot product of two 3-vectors. -/
def dot (a b : Vec3) : ℝ := a.x * b.x + a.y * b.y + a.z * b.z

/-- Modelled from the spec: Euclidean norm of a 3-vector. -/
def norm (v : Vec3) : ℝ := Real.sqrt (dot v v)

/-- Modelled from the spec: cross product of two 3-vectors. -/
def cross (a b : Vec3) : Vec3 :=
  ⟨a.y * b.z - a.z * b.y, a.z * b.x - a.x * b.z, a.x * b.y - a.y * b.x⟩

/-- Modelled from the spec: scalar multiple of a 3-vector. -/
def mult (c : ℝ) (v : Vec3) : Vec3 := ⟨c * v.x, c * v.y, c * v.z⟩

/-- Modelled from the spec: componentwise sum of two 3-vectors. -/
def add (a b : Vec3) : Vec3 := ⟨a.x + b.x, a.y + b.y, a.z + b.z⟩

/-- Modelled from the spec: the C library `atan2(y, x)`, the angle of the
point `(x, y)` in `(-π, π]`, embedded as the complex argument. -/
def atan2 (y x : ℝ) : ℝ := Complex.arg ((x : ℂ) + (y : ℂ) * Complex.I)

/-- Modelled from the spec: `arc_tanh`, inverse hyperbolic tangent
(declared in the missing header; used by `f2H`). -/
def arc_tanh (x : ℝ) : ℝ := Real.log ((1 + x) / (1 - x)) / 2

/-- Modelled from the spec: `arc_cosh`, inverse hyperbolic cosine
(declared in the missing header; used by the rectilinear branch of
`rv2elem`). -/
def arc_cosh (x : ℝ) : ℝ := Real.log (x + Real.sqrt (x * x - 1))

/-- Modelled from the spec: Earth gravitational parameter from the missing
`orbitalMotion.h` (external configuration per §6; no claim depends on the
specific value). -/
def MU_EARTH : ℝ := 398600.436

/-- Modelled from the spec: Earth equatorial radius (km) from the missing
`orbitalMotion.h` (external configuration; no claim depends on the value). -/
def REQ_EARTH : ℝ := 6378.14

/-- Modelled from the spec: Earth `J2` zonal coefficient (missing header). -/
def J2_EARTH : ℝ := 1082.616e-6

/-- Modelled from the spec: Earth `J3` zonal coefficient (missing header). -/
def J3_EARTH : ℝ := -2.53881e-6

/-- Modelled from the spec: Earth `J4` zonal coefficient (missing header). -/
def J4_EARTH : ℝ := -1.65597e-6

/-- Modelled from the spec: Earth `J5` zonal coefficient (missing header). -/
def J5_EARTH : ℝ := -2.23e-7

/-- Modelled from the spec: Earth `J6` zonal coefficient (missing header). -/
def J6_EARTH : ℝ := 5.45e-7

/-! ### Anomaly conversions -/

/-- Embedding of `E2f(Ecc, e)` from the source: true anomaly from eccentric anomaly;
`none` embeds the `NAN` sentinel returned when `¬(0 ≤ e < 1)`. -/
def E2f (Ecc e : ℝ) : Option ℝ :=
  if 0 ≤ e ∧ e < 1 then
    some (2 * atan2 (Real.sqrt (1 + e) * Real.sin (Ecc / 2))
                    (Real.sqrt (1 - e) * Real.cos (Ecc / 2)))
  else none

/-- Embedding of `E2M(Ecc, e)` from the source: mean anomaly from eccentric anomaly. -/
def E2M (Ecc e : ℝ) : Option ℝ :=
  if 0 ≤ e ∧ e < 1 then some (Ecc - e * Real.sin Ecc) else none

/-- Embedding of `f2E(f, e)` from the source: eccentric anomaly from true anomaly. -/
def f2E (f e : ℝ) : Option ℝ :=
  if 0 ≤ e ∧ e < 1 then
    some (2 * atan2 (Real.sqrt (1 - e) * Real.sin (f / 2))
                    (Real.sqrt (1 + e) * Real.cos (f / 2)))
  else none

/-- Embedding of `f2H(f, e)` from the source: hyperbolic anomaly from true anomaly. -/
def f2H (f e : ℝ) : Option ℝ :=
  if 1 < e then
    some (2 * arc_tanh (Real.sqrt ((e - 1) / (e + 1)) * Real.tan (f / 2)))
  else none

/-- Embedding of `H2f(H, e)` from the source: true anomaly from hyperbolic anomaly. -/
def H2f (H e : ℝ) : Option ℝ :=
  if 1 < e then
    some (2 * Real.arctan (Real.sqrt ((e + 1) / (e - 1)) * Real.tanh (H / 2)))
  else none

/-- Embedding of `H2N(H, e)` from the source: mean hyperbolic anomaly from hyperbolic. -/
def H2N (H e : ℝ) : Option ℝ :=
  if 1 < e then some (e * Real.sinh H - H) else none

/-- One Newton-Raphson correction `dE` of `M2E` at the current estimate. -/
def M2Edelta (M e E1 : ℝ) : ℝ :=
  (E1 - e * Real.sin E1 - M) / (1 - e * Real.cos E1)

/-- The `while(fabs(dE) > small)` loop of `M2E`.  The state is the current
estimate `E1` and the last correction `dE`; `fuel` is the number of times
the cap check `++count > max` can still fail (initially `max = 200`).  When
`fuel` is exhausted the update is still applied once — the C code forces
`dE = 0` only *after* `E1 -= dE` — and the loop exits.  The second component
counts how many times the update `E1 -= dE` was executed (the final value of
the C variable `count`). -/
def M2Eloop (M e : ℝ) : ℕ → ℝ → ℝ → ℝ × ℕ
  | fuel, E1, dE =>
    if |dE| ≤ 1e-13 then (E1, 0)
    else
      let d := M2Edelta M e E1
      match fuel with
      | 0 => (E1 - d, 1)
      | f + 1 =>
        let r := M2Eloop M e f (E1 - d) d
        (r.1, r.2 + 1)

/-- Embedding of `M2E(M, e)` from the source: Newton-Raphson inversion of Kepler's
equation, seeded at `E1 = M` with initial `dE = 10 * small`. -/
def M2E (M e : ℝ) : Option ℝ :=
  if 0 ≤ e ∧ e < 1 then some (M2Eloop M e 200 M (10 * 1e-13)).1 else none

/-- Number of Newton updates `E1 -= dE` performed by `M2E` (the final value
of the C counter `count`). -/
def M2Ecount (M e : ℝ) : ℕ := (M2Eloop M e 200 M (10 * 1e-13)).2

/-- The pure Newton iterate sequence of `M2E` seeded at `M`. -/
def kepIter (M e : ℝ) : ℕ → ℝ
  | 0 => M
  | n + 1 => kepIter M e n - M2Edelta M e (kepIter M e n)

/-- One Newton-Raphson correction `dH` of `N2H` at the current estimate. -/
def N2Hdelta (N e H1 : ℝ) : ℝ :=
  (e * Real.sinh H1 - H1 - N) / (e * Real.cosh H1 - 1)

/-- The `while(fabs(dH) > small)` loop of `N2H`; see `M2Eloop`. -/
def N2Hloop (N e : ℝ) : ℕ → ℝ → ℝ → ℝ × ℕ
  | fuel, H1, dH =>
    if |dH| ≤ 1e-13 then (H1, 0)
    else
      let d := N2Hdelta N e H1
      match fuel with
      | 0 => (H1 - d, 1)
      | f + 1 =>
        let r := N2Hloop N e f (H1 - d) d
        (r.1, r.2 + 1)

/-- Embedding of `N2H(N, e)` from the source: Newton-Raphson inversion of the hyperbolic
Kepler equation, seeded at `H1 = N`. -/
def N2H (N e : ℝ) : Option ℝ :=
  if 1 < e then some (N2Hloop N e 200 N (10 * 1e-13)).1 else none

/-- Number of Newton updates `H1 -= dH` performed by `N2H`. -/
def N2Hcount (N e : ℝ) : ℕ := (N2Hloop N e 200 N (10 * 1e-13)).2

/-- The pure Newton iterate sequence of `N2H` seeded at `N`. -/
def hypIter (N e : ℝ) : ℕ → ℝ
  | 0 => N
  | n + 1 => hypIter N e n - N2Hdelta N e (hypIter N e n)

/-! ### Elements ↔ state transformation -/

/-- Classical orbit elements, as in the source header (spec §3). -/
structure classicElements where
  a : ℝ
  e : ℝ
  i : ℝ
  Omega : ℝ
  omega : ℝ
  anom : ℝ

/-- Embedding of `elem2rv(mu, elements)` from the source; returns `(rVec, vVec)`. -/
def elem2rv (mu : ℝ) (el : classicElements) : Vec3 × Vec3 :=
  let a := el.a
  let e := el.e
  let i := el.i
  let AN := el.Omega
  let AP := el.omega
  let f := el.anom
  if e = 1 ∧ 0 < a then
    -- rectilinear elliptic orbit case: f is treated as eccentric anomaly
    let Ecc := f
    let r := a * (1 - e * Real.cos Ecc)
    let v := Real.sqrt (2 * mu / r - mu / a)
    let ir : Vec3 :=
      ⟨Real.cos AN * Real.cos AP - Real.sin AN * Real.sin AP * Real.cos i,
       Real.sin AN * Real.cos AP + Real.cos AN * Real.sin AP * Real.cos i,
       Real.sin AP * Real.sin i⟩
    (mult r ir, if 0 < Real.sin Ecc then mult (-v) ir else mult v ir)
  else
    let p := if e = 1 ∧ a < 0 then 2 * (-a) else a * (1 - e * e)
    let r := p / (1 + e * Real.cos f)
    let theta := AP + f
    let h := Real.sqrt (mu * p)
    (⟨r * (Real.cos AN * Real.cos theta - Real.sin AN * Real.sin theta * Real.cos i),
      r * (Real.sin AN * Real.cos theta + Real.cos AN * Real.sin theta * Real.cos i),
      r * (Real.sin theta * Real.sin i)⟩,
     ⟨-mu / h * (Real.cos AN * (Real.sin theta + e * Real.sin AP) +
                 Real.sin AN * (Real.cos theta + e * Real.cos AP) * Real.cos i),
      -mu / h * (Real.sin AN * (Real.sin theta + e * Real.sin AP) -
                 Real.cos AN * (Real.cos theta + e * Real.cos AP) * Real.cos i),
      -mu / h * (-(Real.cos theta + e * Real.cos AP) * Real.sin i)⟩)

/-- The tolerance `eps = 0.000000000001` of `rv2elem`. -/
def rvEps : ℝ := 0.000000000001

/-- The angular-momentum vector `hVec = rVec × vVec` of `rv2elem`. -/
def rvHvec (rVec vVec : Vec3) : Vec3 := cross rVec vVec

/-- The radial unit vector `ir = rVec / |rVec|` of `rv2elem`. -/
def rvIr (rVec : Vec3) : Vec3 := mult (1 / norm rVec) rVec

/-- The (unnormalized) eccentricity vector
`cVec = vVec × hVec - (mu/r) rVec` of `rv2elem`. -/
def rvCvec (mu : ℝ) (rVec vVec : Vec3) : Vec3 :=
  add (cross vVec (rvHvec rVec vVec)) (mult (-mu / norm rVec) rVec)

/-- The inverse semi-major axis `ai = 2/r - v·v/mu` of `rv2elem`. -/
def rvAi (mu : ℝ) (rVec vVec : Vec3) : ℝ :=
  2 / norm rVec - dot vVec vVec / mu

/-- The eccentricity field written by `rv2elem`: `|cVec|/mu`, overwritten
with exactly `1` in the parabolic case `|ai| ≤ eps`. -/
def rvE (mu : ℝ) (rVec vVec : Vec3) : ℝ :=
  if rvEps < |rvAi mu rVec vVec| then norm (rvCvec mu rVec vVec) / mu else 1

/-- The semi-major-axis field written by `rv2elem`: `1/ai`, or `-rp` with
`rp = (h*h/mu)/2` in the parabolic case `|ai| ≤ eps`. -/
def rvA (mu : ℝ) (rVec vVec : Vec3) : ℝ :=
  if rvEps < |rvAi mu rVec vVec| then 1 / rvAi mu rVec vVec
  else -(norm (rvHvec rVec vVec) * norm (rvHvec rVec vVec) / mu / 2)

/-- The perifocal triad `(ih, ie, ip)` constructed by `rv2elem`, including
the arbitrary-direction conventions of the rectilinear (`h < eps`) and
circular (`|e| ≤ eps`) cases. -/
def rvFrame (mu : ℝ) (rVec vVec : Vec3) : Vec3 × Vec3 × Vec3 :=
  let h := norm (rvHvec rVec vVec)
  if h < rvEps then
    let ie := rvIr rVec
    let ihRaw := cross ie ⟨0, 0, 1⟩
    let ipRaw := cross ie ⟨0, 1, 0⟩
    let ih := if norm ipRaw < norm ihRaw then mult (1 / norm ihRaw) ihRaw
              else mult (1 / norm ipRaw) ipRaw
    (ih, ie, cross ih ie)
  else
    let ih := mult (1 / h) (rvHvec rVec vVec)
    let ie := if rvEps < |rvE mu rVec vVec|
              then mult (1 / mu / rvE mu rVec vVec) (rvCvec mu rVec vVec)
              else rvIr rVec
    (ih, ie, cross ih ie)

/-- The anomaly field written by `rv2elem`: eccentric (or hyperbolic)
anomaly with quadrant correction in the rectilinear case, true anomaly
`atan2((ie × ir)·ih, ie·ir)` otherwise. -/
def rvAnom (mu : ℝ) (rVec vVec : Vec3) : ℝ :=
  if norm (rvHvec rVec vVec) < rvEps then
    if 0 < rvAi mu rVec vVec then
      let Ecc := Real.arccos (1 - norm rVec * rvAi mu rVec vVec)
      if 0 < dot rVec vVec then 2 * Real.pi - Ecc else Ecc
    else
      let H := arc_cosh (norm rVec * rvAi mu rVec vVec + 1)
      if dot rVec vVec < 0 then 2 * Real.pi - H else H
  else
    atan2 (dot (cross (rvFrame mu rVec vVec).2.1 (rvIr rVec)) (rvFrame mu rVec vVec).1)
          (dot (rvFrame mu rVec vVec).2.1 (rvIr rVec))

/-- Embedding of `rv2elem(mu, rVec, vVec)` from the source, assembled from the pieces
above (which mirror the source's statement order). -/
def rv2elem (mu : ℝ) (rVec vVec : Vec3) : classicElements :=
  { a := rvA mu rVec vVec
    e := rvE mu rVec vVec
    i := Real.arccos (rvFrame mu rVec vVec).1.z
    Omega := atan2 (rvFrame mu rVec vVec).1.x (-(rvFrame mu rVec vVec).1.y)
    omega := atan2 (rvFrame mu rVec vVec).2.1.z (rvFrame mu rVec vVec).2.2.z
    anom := rvAnom mu rVec vVec }

/-! ### Perturbation models -/

/-- Embedding of `AtmosphericDensity(alt)` from the source: 6th-order log-density
polynomial fit below 1000 km, exponential decay above. -/
def AtmosphericDensity (alt : ℝ) : ℝ :=
  if 1000 < alt then (10 : ℝ) ^ ((-7e-5) * alt - 14.464)
  else
    (10 : ℝ) ^ (0.34047 * ((alt - 526.8) / 292.8563) ^ (6 : ℕ)
      - 0.5889 * ((alt - 526.8) / 292.8563) ^ (5 : ℕ)
      - 0.5269 * ((alt - 526.8) / 292.8563) ^ (4 : ℕ)
      + 1.0036 * ((alt - 526.8) / 292.8563) ^ (3 : ℕ)
      + 0.60713 * ((alt - 526.8) / 292.8563) ^ (2 : ℕ)
      - 2.3024 * ((alt - 526.8) / 292.8563) - 12.575)

/-- Embedding of `AtmosphericDrag(Cd, A, m, rvec, vvec)` from the source; `none` embeds
the NaN-filled output written when the altitude is not positive. -/
def AtmosphericDrag (Cd A m : ℝ) (rvec vvec : Vec3) : Option Vec3 :=
  let r := norm rvec
  let v := norm vvec
  let alt := r - REQ_EARTH
  if alt ≤ 0 then none
  else
    let density := AtmosphericDensity alt
    let ad := (-0.5) * density * (Cd * A / m) * (v * 1000) ^ (2 : ℕ) / 1000
    some (mult (ad / v) vvec)

/-- The `J2` term of `JPerturb` (the `num >= 2` block of the source). -/
def jTerm2 (rvec : Vec3) : Vec3 :=
  let r := norm rvec
  let zr := rvec.z / r
  mult (-3 / 2 * J2_EARTH * (MU_EARTH / r ^ (2 : ℕ)) * (REQ_EARTH / r) ^ (2 : ℕ))
    ⟨(1 - 5 * zr ^ (2 : ℕ)) * (rvec.x / r),
     (1 - 5 * zr ^ (2 : ℕ)) * (rvec.y / r),
     (3 - 5 * zr ^ (2 : ℕ)) * zr⟩

/-- The `J3` term of `JPerturb` (the `num >= 3` block of the source). -/
def jTerm3 (rvec : Vec3) : Vec3 :=
  let r := norm rvec
  let zr := rvec.z / r
  mult (1 / 2 * J3_EARTH * (MU_EARTH / r ^ (2 : ℕ)) * (REQ_EARTH / r) ^ (3 : ℕ))
    ⟨5 * (7 * zr ^ (3 : ℕ) - 3 * zr) * (rvec.x / r),
     5 * (7 * zr ^ (3 : ℕ) - 3 * zr) * (rvec.y / r),
     -3 * (10 * zr ^ (2 : ℕ) - (35 / 3) * zr ^ (4 : ℕ) - 1)⟩

/-- The `J4` term of `JPerturb` (the `num >= 4` block of the source). -/
def jTerm4 (rvec : Vec3) : Vec3 :=
  let r := norm rvec
  let zr := rvec.z / r
  mult (5 / 8 * J4_EARTH * (MU_EARTH / r ^ (2 : ℕ)) * (REQ_EARTH / r) ^ (4 : ℕ))
    ⟨(3 - 42 * zr ^ (2 : ℕ) + 63 * zr ^ (4 : ℕ)) * (rvec.x / r),
     (3 - 42 * zr ^ (2 : ℕ) + 63 * zr ^ (4 : ℕ)) * (rvec.y / r),
     (15 - 70 * zr ^ (2 : ℕ) + 63 * zr ^ (4 : ℕ)) * zr⟩

/-- The `J5` term of `JPerturb` (the `num >= 5` block of the source). -/
def jTerm5 (rvec : Vec3) : Vec3 :=
  let r := norm rvec
  let zr := rvec.z / r
  mult (1 / 8 * J5_EARTH * (MU_EARTH / r ^ (2 : ℕ)) * (REQ_EARTH / r) ^ (5 : ℕ))
    ⟨3 * (35 * zr - 210 * zr ^ (3 : ℕ) + 231 * zr ^ (5 : ℕ)) * (rvec.x / r),
     3 * (35 * zr - 210 * zr ^ (3 : ℕ) + 231 * zr ^ (5 : ℕ)) * (rvec.y / r),
     -(15 - 315 * zr ^ (2 : ℕ) + 945 * zr ^ (4 : ℕ) - 693 * zr ^ (6 : ℕ))⟩

/-- The `J6` term of `JPerturb` (the `num >= 6` block of the source). -/
def jTerm6 (rvec : Vec3) : Vec3 :=
  let r := norm rvec
  let zr := rvec.z / r
  mult (-1 / 16 * J6_EARTH * (MU_EARTH / r ^ (2 : ℕ)) * (REQ_EARTH / r) ^ (6 : ℕ))
    ⟨(35 - 945 * zr ^ (2 : ℕ) + 3465 * zr ^ (4 : ℕ) - 3003 * zr ^ (6 : ℕ)) * (rvec.x / r),
     (35 - 945 * zr ^ (2 : ℕ) + 3465 * zr ^ (4 : ℕ) - 3003 * zr ^ (6 : ℕ)) * (rvec.y / r),
     -(3003 * zr ^ (6 : ℕ) - 4851 * zr ^ (4 : ℕ) + 2205 * zr ^ (2 : ℕ) - 245) * zr⟩

/-- Embedding of `JPerturb(rvec, num)` from the source: `none` embeds the NaN-filled
output for `num` outside `[2, 6]`; otherwise the `J2` term plus each later
term up to the requested degree (the source's guarded accumulation; the
`num >= 2` guard of the first block always holds after the range check). -/
def JPerturb (rvec : Vec3) (num : ℤ) : Option Vec3 :=
  if num < 2 ∨ 6 < num then none
  else
    let acc2 := jTerm2 rvec
    let acc3 := if 3 ≤ num then add acc2 (jTerm3 rvec) else acc2
    let acc4 := if 4 ≤ num then add acc3 (jTerm4 rvec) else acc3
    let acc5 := if 5 ≤ num then add acc4 (jTerm5 rvec) else acc4
    let acc6 := if 6 ≤ num then add acc5 (jTerm6 rvec) else acc5
    some acc6

/-- Embedding of `SolarRad(A, m, sunvec)` from the source. -/
def SolarRad (A m : ℝ) (sunvec : Vec3) : Vec3 :=
  mult ((-1.3 * A * 1372.5398) / (m * 2.997e8 * norm sunvec ^ (3 : ℕ)) / 1000) sunvec

/-! ### The 3-1-3 perifocal triad (used to state the round-trip analysis) -/

/-- Unit vector toward the ascending node: first column of the 3-1-3
rotation `R3(−Ω)·R1(−i)·R3(−θ)` at `θ = 0` projected to the node axis. -/
def pvec (Om : ℝ) : Vec3 := ⟨Real.cos Om, Real.sin Om, 0⟩

/-- In-plane unit vector a quarter turn past the node. -/
def qvec (Om i : ℝ) : Vec3 :=
  ⟨-(Real.sin Om * Real.cos i), Real.cos Om * Real.cos i, Real.sin i⟩

/-- Orbit-normal unit vector `pvec × qvec`. -/
def wvec (Om i : ℝ) : Vec3 :=
  ⟨Real.sin Om * Real.sin i, -(Real.cos Om * Real.sin i), Real.cos i⟩

/-! ### Concrete inputs used by witnesses and counterexamples -/

/-- A non-degenerate elliptic element set used as a concrete witness input. -/
def elWit : classicElements := ⟨1, 1 / 2, Real.pi / 2, 0, 0, 0⟩

/-- An elliptic element set (`e = 1/2`) whose semi-major axis `a = 10^13` km
puts the orbital energy below the parabolic tolerance of `rv2elem`. -/
def elPara : classicElements := ⟨1e13, 1 / 2, Real.pi / 2, 0, 0, 0⟩

end

/-! ## Helper lemmas -/

theorem dot_self_nonneg (v : Vec3) : 0 ≤ dot v v := by
  simp only [dot]
  nlinarith [mul_self_nonneg v.x, mul_self_nonneg v.y, mul_self_nonneg v.z]

theorem norm_nonneg' (v : Vec3) : 0 ≤ norm v := Real.sqrt_nonneg _

theorem norm_pos_of_ne_zero {v : Vec3} (h : v ≠ ⟨0, 0, 0⟩) : 0 < norm v := by
  apply Real.sqrt_pos.mpr
  rcases lt_or_eq_of_le (dot_self_nonneg v) with hlt | heq
  · exact hlt
  · exfalso
    apply h
    simp only [dot] at heq
    have hx : v.x * v.x = 0 := by nlinarith [mul_self_nonneg v.x, mul_self_nonneg v.y, mul_self_nonneg v.z]
    have hy : v.y * v.y = 0 := by nlinarith [mul_self_nonneg v.x, mul_self_nonneg v.y, mul_self_nonneg v.z]
    have hz : v.z * v.z = 0 := by nlinarith [mul_self_nonneg v.x, mul_self_nonneg v.y, mul_self_nonneg v.z]
    ext
    · exact mul_self_eq_zero.mp hx
    · exact mul_self_eq_zero.mp hy
    · exact mul_self_eq_zero.mp hz

theorem norm_mult (c : ℝ) (v : Vec3) : norm (mult c v) = |c| * norm v := by
  simp only [norm, mult, dot]
  rw [show c * v.x * (c * v.x) + c * v.y * (c * v.y) + c * v.z * (c * v.z)
        = c ^ 2 * (v.x * v.x + v.y * v.y + v.z * v.z) by ring,
      Real.sqrt_mul (sq_nonneg c), Real.sqrt_sq_eq_abs]

theorem atmosphericDensity_pos (alt : ℝ) : 0 < AtmosphericDensity alt := by
  unfold AtmosphericDensity
  split_ifs <;> exact Real.rpow_pos_of_pos (by norm_num) _

/-! ### Vector-algebra lemmas -/

theorem cross_mult_left (c : ℝ) (u v : Vec3) :
    cross (mult c u) v = mult c (cross u v) := by
  ext <;> simp [cross, mult] <;> ring

theorem cross_mult_right (c : ℝ) (u v : Vec3) :
    cross u (mult c v) = mult c (cross u v) := by
  ext <;> simp [cross, mult] <;> ring

theorem cross_add_left (u v w : Vec3) :
    cross (add u v) w = add (cross u w) (cross v w) := by
  ext <;> simp [cross, add] <;> ring

theorem cross_add_right (u v w : Vec3) :
    cross u (add v w) = add (cross u v) (cross u w) := by
  ext <;> simp [cross, add] <;> ring

theorem mult_mult (b c : ℝ) (v : Vec3) : mult b (mult c v) = mult (b * c) v := by
  ext <;> simp [mult] <;> ring

theorem mult_add (c : ℝ) (u v : Vec3) :
    mult c (add u v) = add (mult c u) (mult c v) := by
  ext <;> simp [mult, add] <;> ring

theorem add_collect (P Q : Vec3) (a b c d : ℝ) :
    add (add (mult a P) (mult b Q)) (add (mult c P) (mult d Q)) =
      add (mult (a + c) P) (mult (b + d) Q) := by
  ext <;> simp [add, mult] <;> ring

theorem cross_combo (P Q : Vec3) (a b c d : ℝ) :
    cross (add (mult a P) (mult b Q)) (add (mult c P) (mult d Q)) =
      mult (a * d - b * c) (cross P Q) := by
  ext <;> simp [cross, add, mult] <;> ring

theorem cross_anti (u v : Vec3) : cross u v = mult (-1) (cross v u) := by
  ext <;> simp [cross, mult] <;> ring

theorem dot_mult_left (c : ℝ) (u v : Vec3) : dot (mult c u) v = c * dot u v := by
  simp [dot, mult]
  ring

theorem dot_combo (P Q : Vec3) (hPP : dot P P = 1) (hQQ : dot Q Q = 1)
    (hPQ : dot P Q = 0) (a b c d : ℝ) :
    dot (add (mult a P) (mult b Q)) (add (mult c P) (mult d Q)) = a * c + b * d := by
  simp only [dot, add, mult] at hPP hQQ hPQ ⊢
  linear_combination (a * c) * hPP + (b * d) * hQQ + (a * d + b * c) * hPQ

theorem norm_combo (P Q : Vec3) (hPP : dot P P = 1) (hQQ : dot Q Q = 1)
    (hPQ : dot P Q = 0) {a b k : ℝ} (hk : 0 ≤ k) (hab : a * a + b * b = k * k) :
    norm (add (mult a P) (mult b Q)) = k := by
  rw [norm, dot_combo P Q hPP hQQ hPQ]
  rw [show a * a + b * b = k ^ 2 by rw [hab]; ring]
  exact Real.sqrt_sq hk

/-! ### Orthonormality of the 3-1-3 triad -/

theorem dot_pvec (Om : ℝ) : dot (pvec Om) (pvec Om) = 1 := by
  simp only [dot, pvec]
  linear_combination Real.sin_sq_add_cos_sq Om

theorem dot_qvec (Om i : ℝ) : dot (qvec Om i) (qvec Om i) = 1 := by
  simp only [dot, qvec]
  linear_combination (Real.cos i) ^ 2 * Real.sin_sq_add_cos_sq Om + Real.sin_sq_add_cos_sq i

theorem dot_wvec (Om i : ℝ) : dot (wvec Om i) (wvec Om i) = 1 := by
  simp only [dot, wvec]
  linear_combination (Real.sin i) ^ 2 * Real.sin_sq_add_cos_sq Om + Real.sin_sq_add_cos_sq i

theorem dot_pq (Om i : ℝ) : dot (pvec Om) (qvec Om i) = 0 := by
  simp only [dot, pvec, qvec]
  ring

theorem cross_pq (Om i : ℝ) : cross (pvec Om) (qvec Om i) = wvec Om i := by
  ext <;> simp only [cross, pvec, qvec, wvec]
  · ring
  · ring
  · linear_combination (Real.cos i) * Real.sin_sq_add_cos_sq Om

theorem cross_qw (Om i : ℝ) : cross (qvec Om i) (wvec Om i) = pvec Om := by
  ext <;> simp only [cross, qvec, wvec, pvec]
  · linear_combination (Real.cos Om) * Real.sin_sq_add_cos_sq i
  · linear_combination (Real.sin Om) * Real.sin_sq_add_cos_sq i
  · ring

theorem cross_wp (Om i : ℝ) : cross (wvec Om i) (pvec Om) = qvec Om i := by
  ext <;> simp only [cross, wvec, pvec, qvec]
  · ring
  · ring
  · linear_combination (Real.sin i) * Real.sin_sq_add_cos_sq Om

theorem norm_wvec (Om i : ℝ) : norm (wvec Om i) = 1 := by
  rw [norm, dot_wvec, Real.sqrt_one]

theorem mult_one_vec (v : Vec3) : mult 1 v = v := by
  ext <;> simp [mult]

/-! ### The general (non-rectilinear) branch of `elem2rv` over the triad -/

/-- In the non-rectilinear branch, the state written by `elem2rv` decomposes
over the perifocal triad: `rVec = r·(cos θ · P + sin θ · Q)` and
`vVec = (μ/h)·(−(sin θ + e sin ω) · P + (cos θ + e cos ω) · Q)`. -/
theorem elem2rv_decomp (mu a e i Om w f : ℝ) (he : e ≠ 1) :
    elem2rv mu ⟨a, e, i, Om, w, f⟩ =
      (add (mult (a * (1 - e * e) / (1 + e * Real.cos f) * Real.cos (w + f)) (pvec Om))
           (mult (a * (1 - e * e) / (1 + e * Real.cos f) * Real.sin (w + f)) (qvec Om i)),
       add (mult (-(mu / Real.sqrt (mu * (a * (1 - e * e)))) *
              (Real.sin (w + f) + e * Real.sin w)) (pvec Om))
           (mult (mu / Real.sqrt (mu * (a * (1 - e * e))) *
              (Real.cos (w + f) + e * Real.cos w)) (qvec Om i))) := by
  have h1 : ¬((⟨a, e, i, Om, w, f⟩ : classicElements).e = 1 ∧
      0 < (⟨a, e, i, Om, w, f⟩ : classicElements).a) := by
    intro hcon
    exact he hcon.1
  have h2 : ¬(e = 1 ∧ a < 0) := fun hcon => he hcon.1
  simp only [elem2rv]
  rw [if_neg h1, if_neg h2]
  refine Prod.ext ?_ ?_ <;> ext <;> simp only [add, mult, pvec, qvec] <;> ring

/-- The angular-momentum vector of the produced state is `h · W` with
`h = √(μp)`. -/
theorem roundtrip_hvec (mu a e i Om w f : ℝ) (hmu : 0 < mu) (he : e ≠ 1)
    (hp : 0 < a * (1 - e * e)) (hcf : 0 < 1 + e * Real.cos f) :
    rvHvec (elem2rv mu ⟨a, e, i, Om, w, f⟩).1 (elem2rv mu ⟨a, e, i, Om, w, f⟩).2 =
      mult (Real.sqrt (mu * (a * (1 - e * e)))) (wvec Om i) := by
  have hmp : 0 < mu * (a * (1 - e * e)) := mul_pos hmu hp
  have hmpos : 0 < Real.sqrt (mu * (a * (1 - e * e))) := Real.sqrt_pos.mpr hmp
  have hm2 : Real.sqrt (mu * (a * (1 - e * e))) ^ 2 = mu * (a * (1 - e * e)) :=
    Real.sq_sqrt hmp.le
  have hm0 : Real.sqrt (mu * (a * (1 - e * e))) ≠ 0 := ne_of_gt hmpos
  have hcf0 : (1 + e * Real.cos f) ≠ 0 := ne_of_gt hcf
  rw [rvHvec, elem2rv_decomp mu a e i Om w f he]
  dsimp only
  rw [cross_combo, cross_pq]
  congr 1
  have hS1 := Real.sin_sq_add_cos_sq w
  have hS2 := Real.sin_sq_add_cos_sq f
  have e1 : Real.cos (w + f) ^ 2 + Real.sin (w + f) ^ 2 +
      e * (Real.cos (w + f) * Real.cos w + Real.sin (w + f) * Real.sin w) =
      1 + e * Real.cos f := by
    rw [Real.cos_add, Real.sin_add]
    linear_combination (Real.cos f ^ 2 + Real.sin f ^ 2 + e * Real.cos f) * hS1 + hS2
  set hm := Real.sqrt (mu * (a * (1 - e * e))) with hhm
  field_simp
  linear_combination mu * (a * (1 - e * e)) * e1 - (1 + e * Real.cos f) * hm2

/-- The norm of the produced position vector is `r = p/(1 + e cos f)`. -/
theorem roundtrip_norm_r (mu a e i Om w f : ℝ) (he : e ≠ 1)
    (hp : 0 < a * (1 - e * e)) (hcf : 0 < 1 + e * Real.cos f) :
    norm (elem2rv mu ⟨a, e, i, Om, w, f⟩).1 = a * (1 - e * e) / (1 + e * Real.cos f) := by
  rw [elem2rv_decomp mu a e i Om w f he]
  dsimp only
  apply norm_combo (pvec Om) (qvec Om i) (dot_pvec Om) (dot_qvec Om i) (dot_pq Om i)
    (le_of_lt (div_pos hp hcf))
  linear_combination (a * (1 - e * e) / (1 + e * Real.cos f)) ^ 2 *
    Real.sin_sq_add_cos_sq (w + f)

/-- Vis-viva: the inverse semi-major axis recovered by `rv2elem` from the
produced state is exactly `1/a`. -/
theorem roundtrip_ai (mu a e i Om w f : ℝ) (hmu : 0 < mu) (he : e ≠ 1)
    (hp : 0 < a * (1 - e * e)) (hcf : 0 < 1 + e * Real.cos f) :
    rvAi mu (elem2rv mu ⟨a, e, i, Om, w, f⟩).1 (elem2rv mu ⟨a, e, i, Om, w, f⟩).2 =
      1 / a := by
  have hmp : 0 < mu * (a * (1 - e * e)) := mul_pos hmu hp
  have hm2 : Real.sqrt (mu * (a * (1 - e * e))) ^ 2 = mu * (a * (1 - e * e)) :=
    Real.sq_sqrt hmp.le
  have hm0 : Real.sqrt (mu * (a * (1 - e * e))) ≠ 0 :=
    ne_of_gt (Real.sqrt_pos.mpr hmp)
  have ha0 : a ≠ 0 := by
    intro h
    rw [h, zero_mul] at hp
    exact lt_irrefl 0 hp
  have h1e : (1 - e * e) ≠ 0 := by
    intro h
    rw [h, mul_zero] at hp
    exact lt_irrefl 0 hp
  have hcf0 : (1 + e * Real.cos f) ≠ 0 := ne_of_gt hcf
  rw [rvAi, roundtrip_norm_r mu a e i Om w f he hp hcf,
      elem2rv_decomp mu a e i Om w f he]
  dsimp only
  rw [dot_combo (pvec Om) (qvec Om i) (dot_pvec Om) (dot_qvec Om i) (dot_pq Om i)]
  have hS1 := Real.sin_sq_add_cos_sq w
  have hS2 := Real.sin_sq_add_cos_sq f
  have hkey : (Real.sin (w + f) + e * Real.sin w) ^ 2 +
      (Real.cos (w + f) + e * Real.cos w) ^ 2 = 1 + e * e + 2 * e * Real.cos f := by
    rw [Real.cos_add, Real.sin_add]
    linear_combination (Real.cos f ^ 2 + Real.sin f ^ 2 + e * e + 2 * e * Real.cos f) * hS1 + hS2
  set hm := Real.sqrt (mu * (a * (1 - e * e))) with hhm
  have hstep : -(mu / hm) * (Real.sin (w + f) + e * Real.sin w) *
        (-(mu / hm) * (Real.sin (w + f) + e * Real.sin w)) +
      mu / hm * (Real.cos (w + f) + e * Real.cos w) *
        (mu / hm * (Real.cos (w + f) + e * Real.cos w)) =
      mu ^ 2 / hm ^ 2 * (1 + e * e + 2 * e * Real.cos f) := by
    have hexp : -(mu / hm) * (Real.sin (w + f) + e * Real.sin w) *
          (-(mu / hm) * (Real.sin (w + f) + e * Real.sin w)) +
        mu / hm * (Real.cos (w + f) + e * Real.cos w) *
          (mu / hm * (Real.cos (w + f) + e * Real.cos w)) =
        mu ^ 2 / hm ^ 2 * ((Real.sin (w + f) + e * Real.sin w) ^ 2 +
          (Real.cos (w + f) + e * Real.cos w) ^ 2) := by
      ring
    rw [hexp, hkey]
  rw [hstep, hm2]
  field_simp
  ring

/-- The eccentricity vector computed by `rv2elem` from the produced state
is `μe·(cos ω · P + sin ω · Q)`. -/
theorem roundtrip_cvec (mu a e i Om w f : ℝ) (hmu : 0 < mu) (he : e ≠ 1)
    (hp : 0 < a * (1 - e * e)) (hcf : 0 < 1 + e * Real.cos f) :
    rvCvec mu (elem2rv mu ⟨a, e, i, Om, w, f⟩).1 (elem2rv mu ⟨a, e, i, Om, w, f⟩).2 =
      add (mult (mu * e * Real.cos w) (pvec Om)) (mult (mu * e * Real.sin w) (qvec Om i)) := by
  have hmp : 0 < mu * (a * (1 - e * e)) := mul_pos hmu hp
  have hm0 : Real.sqrt (mu * (a * (1 - e * e))) ≠ 0 :=
    ne_of_gt (Real.sqrt_pos.mpr hmp)
  have hrm0 : a * (1 - e * e) / (1 + e * Real.cos f) ≠ 0 :=
    ne_of_gt (div_pos hp hcf)
  have hcf0 : (1 + e * Real.cos f) ≠ 0 := ne_of_gt hcf
  have ha0 : a ≠ 0 := by
    intro h
    rw [h, zero_mul] at hp
    exact lt_irrefl 0 hp
  have h1e : (1 - e * e) ≠ 0 := by
    intro h
    rw [h, mul_zero] at hp
    exact lt_irrefl 0 hp
  rw [rvCvec, roundtrip_hvec mu a e i Om w f hmu he hp hcf,
      roundtrip_norm_r mu a e i Om w f he hp hcf,
      elem2rv_decomp mu a e i Om w f he]
  dsimp only
  have hPW : cross (pvec Om) (wvec Om i) = mult (-1) (qvec Om i) := by
    rw [cross_anti, cross_wp]
  have hQW : cross (qvec Om i) (wvec Om i) = pvec Om := cross_qw Om i
  rw [cross_mult_right, cross_add_left, cross_mult_left, cross_mult_left, hPW, hQW,
      mult_mult, mult_add, mult_mult, mult_mult, mult_add, mult_mult, mult_mult]
  set hm := Real.sqrt (mu * (a * (1 - e * e))) with hhm
  have hA : hm * (-(mu / hm) * (Real.sin (w + f) + e * Real.sin w) * -1) =
      mu * (Real.sin (w + f) + e * Real.sin w) := by
    field_simp
  have hB : hm * (mu / hm * (Real.cos (w + f) + e * Real.cos w)) =
      mu * (Real.cos (w + f) + e * Real.cos w) := by
    field_simp
  have hC : -mu / (a * (1 - e * e) / (1 + e * Real.cos f)) *
      (a * (1 - e * e) / (1 + e * Real.cos f) * Real.cos (w + f)) =
      -(mu * Real.cos (w + f)) := by
    field_simp
    ring
  have hD : -mu / (a * (1 - e * e) / (1 + e * Real.cos f)) *
      (a * (1 - e * e) / (1 + e * Real.cos f) * Real.sin (w + f)) =
      -(mu * Real.sin (w + f)) := by
    field_simp
    ring
  rw [hA, hB, hC, hD]
  ext <;> simp only [add, mult, pvec, qvec] <;> ring

theorem atan2_scale {c : ℝ} (hc : 0 < c) (y x : ℝ) :
    atan2 (c * y) (c * x) = atan2 y x := by
  unfold atan2
  rw [show ((c * x : ℝ) : ℂ) + ((c * y : ℝ) : ℂ) * Complex.I
        = (c : ℂ) * ((x : ℂ) + (y : ℂ) * Complex.I) by push_cast; ring]
  exact Complex.arg_real_mul _ hc

theorem atan2_cos_sin {θ : ℝ} (h : θ ∈ Set.Ioc (-Real.pi) Real.pi) :
    atan2 (Real.sin θ) (Real.cos θ) = θ := by
  unfold atan2
  rw [Complex.ofReal_cos, Complex.ofReal_sin]
  exact Complex.arg_cos_add_sin_mul_I h

theorem atan2_cos_sin_mod (θ : ℝ) :
    ∃ k : ℤ, atan2 (Real.sin θ) (Real.cos θ) = θ + 2 * Real.pi * k := by
  have hp : (0 : ℝ) < 2 * Real.pi := Real.two_pi_pos
  have hmem := toIocMod_mem_Ioc hp (-Real.pi) θ
  have hsum := toIocMod_add_toIocDiv_zsmul hp (-Real.pi) θ
  set θ2 := toIocMod hp (-Real.pi) θ with hθ2
  set n := toIocDiv hp (-Real.pi) θ with hn
  have hθeq : θ = θ2 + (n : ℝ) * (2 * Real.pi) := by
    rw [← hsum, zsmul_eq_mul]
  have hmem' : θ2 ∈ Set.Ioc (-Real.pi) Real.pi := by
    rcases hmem with ⟨h1, h2⟩
    exact ⟨h1, by linarith [h2, Real.pi_pos]⟩
  refine ⟨-n, ?_⟩
  have hsin : Real.sin θ = Real.sin θ2 := by
    rw [hθeq, Real.sin_add_int_mul_two_pi]
  have hcos : Real.cos θ = Real.cos θ2 := by
    rw [hθeq, Real.cos_add_int_mul_two_pi]
  rw [hsin, hcos, atan2_cos_sin hmem', hθeq]
  push_cast
  ring

theorem M2Eloop_spec (M e : ℝ) :
    ∀ fuel E1 dE k, E1 = kepIter M e k →
      (M2Eloop M e fuel E1 dE).1 = kepIter M e (k + (M2Eloop M e fuel E1 dE).2) ∧
      (M2Eloop M e fuel E1 dE).2 ≤ fuel + 1 := by
  intro fuel
  induction fuel with
  | zero =>
    intro E1 dE k hk
    rw [M2Eloop]
    split_ifs with h
    · simpa using hk
    · refine ⟨?_, by norm_num⟩
      show E1 - M2Edelta M e E1 = kepIter M e (k + 1)
      rw [hk]
      simp [kepIter]
  | succ f ih =>
    intro E1 dE k hk
    rw [M2Eloop]
    split_ifs with h
    · simpa using hk
    · have hnext : E1 - M2Edelta M e E1 = kepIter M e (k + 1) := by
        rw [hk]; simp [kepIter]
      obtain ⟨h1, h2⟩ := ih (E1 - M2Edelta M e E1) (M2Edelta M e E1) (k + 1) hnext
      refine ⟨?_, ?_⟩
      · show (M2Eloop M e f (E1 - M2Edelta M e E1) (M2Edelta M e E1)).1 =
          kepIter M e (k + ((M2Eloop M e f (E1 - M2Edelta M e E1) (M2Edelta M e E1)).2 + 1))
        rw [h1]
        congr 1
        omega
      · show (M2Eloop M e f (E1 - M2Edelta M e E1) (M2Edelta M e E1)).2 + 1 ≤ f + 1 + 1
        omega

theorem N2Hloop_spec (N e : ℝ) :
    ∀ fuel H1 dH k, H1 = hypIter N e k →
      (N2Hloop N e fuel H1 dH).1 = hypIter N e (k + (N2Hloop N e fuel H1 dH).2) ∧
      (N2Hloop N e fuel H1 dH).2 ≤ fuel + 1 := by
  intro fuel
  induction fuel with
  | zero =>
    intro H1 dH k hk
    rw [N2Hloop]
    split_ifs with h
    · simpa using hk
    · refine ⟨?_, by norm_num⟩
      show H1 - N2Hdelta N e H1 = hypIter N e (k + 1)
      rw [hk]
      simp [hypIter]
  | succ f ih =>
    intro H1 dH k hk
    rw [N2Hloop]
    split_ifs with h
    · simpa using hk
    · have hnext : H1 - N2Hdelta N e H1 = hypIter N e (k + 1) := by
        rw [hk]; simp [hypIter]
      obtain ⟨h1, h2⟩ := ih (H1 - N2Hdelta N e H1) (N2Hdelta N e H1) (k + 1) hnext
      refine ⟨?_, ?_⟩
      · show (N2Hloop N e f (H1 - N2Hdelta N e H1) (N2Hdelta N e H1)).1 =
          hypIter N e (k + ((N2Hloop N e f (H1 - N2Hdelta N e H1) (N2Hdelta N e H1)).2 + 1))
        rw [h1]
        congr 1
        omega
      · show (N2Hloop N e f (H1 - N2Hdelta N e H1) (N2Hdelta N e H1)).2 + 1 ≤ f + 1 + 1
        omega

theorem n2h_poly_bound (H : ℝ) (h1 : 35 ≤ H) : H + 301 ≤ 0.1 * (1 + H / 4) ^ (4 : ℕ) := by
  have ht : 0 ≤ H - 35 := by linarith
  nlinarith [ht, mul_nonneg ht ht, mul_nonneg (mul_nonneg ht ht) ht,
    mul_nonneg (mul_nonneg ht ht) (mul_nonneg ht ht)]

/-- In the slow region `35 ≤ H ≤ 300`, each Newton correction of
`N2H(300, 2)` lies in `[9/10, 1]`: the iteration creeps down by about one
per step. -/
theorem n2h_delta_bounds (H : ℝ) (h1 : 35 ≤ H) (h2 : H ≤ 300) :
    9 / 10 ≤ N2Hdelta 300 2 H ∧ N2Hdelta 300 2 H ≤ 1 := by
  have hcosh : (1 : ℝ) ≤ Real.cosh H := Real.one_le_cosh H
  have hden : 0 < 2 * Real.cosh H - 1 := by linarith
  have hsinh : Real.sinh H < Real.cosh H := Real.sinh_lt_cosh H
  constructor
  · rw [N2Hdelta, le_div_iff hden]
    rw [Real.cosh_eq, Real.sinh_eq]
    have hexp4 : Real.exp H = Real.exp (H / 4) ^ (4 : ℕ) := by
      rw [← Real.exp_nat_mul]
      congr 1
      push_cast
      ring
    have hbase : 1 + H / 4 ≤ Real.exp (H / 4) := by
      have := Real.add_one_le_exp (H / 4)
      linarith
    have hbase0 : (0 : ℝ) ≤ 1 + H / 4 := by linarith
    have hpow : (1 + H / 4) ^ (4 : ℕ) ≤ Real.exp H := by
      rw [hexp4]
      exact pow_le_pow_left hbase0 hbase 4
    have hneg : Real.exp (-H) ≤ 1 := by
      rw [Real.exp_le_one_iff]
      linarith
    have hpoly := n2h_poly_bound H h1
    linarith [hpow, hneg, hpoly]
  · rw [N2Hdelta, div_le_one hden]
    linarith [hsinh]

/-- With `N = 300`, `e = 2` the `N2H` loop exhausts all of its fuel: from
any start `H1 ≥ 35 + fuel` (and `H1 ≤ 300`, last correction above the
convergence threshold) it performs exactly `fuel + 1` updates. -/
theorem n2h_loop_full :
    ∀ fuel : ℕ, ∀ H1 dH : ℝ, 35 + (fuel : ℝ) ≤ H1 → H1 ≤ 300 → 1e-13 < |dH| →
      (N2Hloop 300 2 fuel H1 dH).2 = fuel + 1 := by
  intro fuel
  induction fuel with
  | zero =>
    intro H1 dH hl hu hd
    rw [N2Hloop, if_neg (not_le.mpr hd)]
  | succ f ih =>
    intro H1 dH hl hu hd
    rw [N2Hloop, if_neg (not_le.mpr hd)]
    have hf : (0 : ℝ) ≤ (f : ℝ) := Nat.cast_nonneg f
    have hl' : (35 : ℝ) + ((f : ℕ) + 1 : ℕ) ≤ H1 := hl
    have hcast : ((f + 1 : ℕ) : ℝ) = (f : ℝ) + 1 := by push_cast; ring
    have hE1l : (35 : ℝ) ≤ H1 := by
      rw [show ((f + 1 : ℕ) : ℝ) = (f : ℝ) + 1 from by push_cast; ring] at hl
      linarith
    obtain ⟨hd1, hd2⟩ := n2h_delta_bounds H1 hE1l hu
    have hrec := ih (H1 - N2Hdelta 300 2 H1) (N2Hdelta 300 2 H1)
      (by
        rw [hcast] at hl
        linarith)
      (by linarith)
      (by
        rw [abs_of_nonneg (by linarith : (0:ℝ) ≤ N2Hdelta 300 2 H1)]
        linarith)
    show (N2Hloop 300 2 f (H1 - N2Hdelta 300 2 H1) (N2Hdelta 300 2 H1)).2 + 1 = f + 1 + 1
    rw [hrec]

/-! ## Claim theorems -/

/-- Claim C1 (amended): for `mu > 0` and a non-degenerate element set that
in addition stays strictly clear of the `1e-12` tolerance thresholds of
`rv2elem` (`e > 1e-12`, `|1/a| > 1e-12`, `√(μ·a(1−e²)) ≥ 1e-12`), has a
physically consistent anomaly (`1 + e·cos f > 0`) and node/periapsis angles
in the principal range `(−π, π]`, the round trip `elem2rv` → `rv2elem`
recovers `a`, `e`, `i`, `Ω`, `ω` exactly and the anomaly modulo `2π`. -/
theorem c1_roundtrip_amended (mu : ℝ) (el : classicElements)
    (hmu : 0 < mu)
    (he0 : rvEps < el.e) (he1 : el.e ≠ 1)
    (hh : rvEps ≤ Real.sqrt (mu * (el.a * (1 - el.e * el.e))))
    (ha : rvEps < |1 / el.a|)
    (hi : el.i ∈ Set.Ioo 0 Real.pi)
    (hΩ : el.Omega ∈ Set.Ioc (-Real.pi) Real.pi)
    (hω : el.omega ∈ Set.Ioc (-Real.pi) Real.pi)
    (hcf : 0 < 1 + el.e * Real.cos el.anom) :
    (rv2elem mu (elem2rv mu el).1 (elem2rv mu el).2).a = el.a ∧
    (rv2elem mu (elem2rv mu el).1 (elem2rv mu el).2).e = el.e ∧
    (rv2elem mu (elem2rv mu el).1 (elem2rv mu el).2).i = el.i ∧
    (rv2elem mu (elem2rv mu el).1 (elem2rv mu el).2).Omega = el.Omega ∧
    (rv2elem mu (elem2rv mu el).1 (elem2rv mu el).2).omega = el.omega ∧
    ∃ k : ℤ, (rv2elem mu (elem2rv mu el).1 (elem2rv mu el).2).anom =
      el.anom + 2 * Real.pi * k := by
  obtain ⟨a, e, i, Om, w, f⟩ := el
  dsimp only at he0 he1 hh ha hi hΩ hω hcf ⊢
  have hε : (0 : ℝ) < rvEps := by norm_num [rvEps]
  have he : 0 < e := lt_trans hε he0
  have hp : 0 < a * (1 - e * e) := by
    by_contra hple
    push_neg at hple
    have h0 : mu * (a * (1 - e * e)) ≤ 0 := by nlinarith
    rw [Real.sqrt_eq_zero'.mpr h0] at hh
    linarith
  have hmp : 0 < mu * (a * (1 - e * e)) := mul_pos hmu hp
  have hmpos : 0 < Real.sqrt (mu * (a * (1 - e * e))) := Real.sqrt_pos.mpr hmp
  have hm0 : Real.sqrt (mu * (a * (1 - e * e))) ≠ 0 := ne_of_gt hmpos
  have hrmpos : 0 < a * (1 - e * e) / (1 + e * Real.cos f) := div_pos hp hcf
  have hrm0 : a * (1 - e * e) / (1 + e * Real.cos f) ≠ 0 := ne_of_gt hrmpos
  have hsi : 0 < Real.sin i := Real.sin_pos_of_pos_of_lt_pi hi.1 hi.2
  have hH := roundtrip_hvec mu a e i Om w f hmu he1 hp hcf
  have hR := roundtrip_norm_r mu a e i Om w f he1 hp hcf
  have hAI := roundtrip_ai mu a e i Om w f hmu he1 hp hcf
  have hCv := roundtrip_cvec mu a e i Om w f hmu he1 hp hcf
  have hnormH : norm (rvHvec (elem2rv mu ⟨a, e, i, Om, w, f⟩).1
      (elem2rv mu ⟨a, e, i, Om, w, f⟩).2) = Real.sqrt (mu * (a * (1 - e * e))) := by
    rw [hH, norm_mult, abs_of_pos hmpos, norm_wvec, mul_one]
  have hnormC : norm (rvCvec mu (elem2rv mu ⟨a, e, i, Om, w, f⟩).1
      (elem2rv mu ⟨a, e, i, Om, w, f⟩).2) = mu * e := by
    rw [hCv]
    apply norm_combo (pvec Om) (qvec Om i) (dot_pvec Om) (dot_qvec Om i) (dot_pq Om i)
      (by positivity)
    linear_combination (mu * e) ^ 2 * Real.sin_sq_add_cos_sq w
  have haiabs : rvEps < |rvAi mu (elem2rv mu ⟨a, e, i, Om, w, f⟩).1
      (elem2rv mu ⟨a, e, i, Om, w, f⟩).2| := by
    rw [hAI]
    exact ha
  have hE : rvE mu (elem2rv mu ⟨a, e, i, Om, w, f⟩).1
      (elem2rv mu ⟨a, e, i, Om, w, f⟩).2 = e := by
    rw [rvE, if_pos haiabs, hnormC]
    exact mul_div_cancel_left₀ e (ne_of_gt hmu)
  have hnotrect : ¬(norm (rvHvec (elem2rv mu ⟨a, e, i, Om, w, f⟩).1
      (elem2rv mu ⟨a, e, i, Om, w, f⟩).2) < rvEps) := by
    rw [hnormH]
    exact not_lt.mpr hh
  have hEabs : rvEps < |rvE mu (elem2rv mu ⟨a, e, i, Om, w, f⟩).1
      (elem2rv mu ⟨a, e, i, Om, w, f⟩).2| := by
    rw [hE, abs_of_pos he]
    exact he0
  have hIH : (rvFrame mu (elem2rv mu ⟨a, e, i, Om, w, f⟩).1
      (elem2rv mu ⟨a, e, i, Om, w, f⟩).2).1 = wvec Om i := by
    simp only [rvFrame]
    rw [if_neg hnotrect]
    dsimp only
    rw [hnormH, hH, mult_mult, one_div_mul_cancel hm0, mult_one_vec]
  have hIE : (rvFrame mu (elem2rv mu ⟨a, e, i, Om, w, f⟩).1
      (elem2rv mu ⟨a, e, i, Om, w, f⟩).2).2.1 =
      add (mult (Real.cos w) (pvec Om)) (mult (Real.sin w) (qvec Om i)) := by
    simp only [rvFrame]
    rw [if_neg hnotrect]
    dsimp only
    rw [if_pos hEabs, hE, hCv, mult_add, mult_mult, mult_mult]
    have h1 : 1 / mu / e * (mu * e * Real.cos w) = Real.cos w := by
      field_simp
    have h2 : 1 / mu / e * (mu * e * Real.sin w) = Real.sin w := by
      field_simp
    rw [h1, h2]
  have hframe22 : (rvFrame mu (elem2rv mu ⟨a, e, i, Om, w, f⟩).1
      (elem2rv mu ⟨a, e, i, Om, w, f⟩).2).2.2 =
      cross (rvFrame mu (elem2rv mu ⟨a, e, i, Om, w, f⟩).1
        (elem2rv mu ⟨a, e, i, Om, w, f⟩).2).1
      (rvFrame mu (elem2rv mu ⟨a, e, i, Om, w, f⟩).1
        (elem2rv mu ⟨a, e, i, Om, w, f⟩).2).2.1 := by
    simp only [rvFrame]
    rw [if_neg hnotrect]
  have hIP : (rvFrame mu (elem2rv mu ⟨a, e, i, Om, w, f⟩).1
      (elem2rv mu ⟨a, e, i, Om, w, f⟩).2).2.2 =
      add (mult (-Real.sin w) (pvec Om)) (mult (Real.cos w) (qvec Om i)) := by
    rw [hframe22, hIH, hIE]
    have hWQ : cross (wvec Om i) (qvec Om i) = mult (-1) (pvec Om) := by
      rw [cross_anti, cross_qw]
    rw [cross_add_right, cross_mult_right, cross_mult_right, cross_wp, hWQ]
    ext <;> simp only [add, mult] <;> ring
  have hIR : rvIr (elem2rv mu ⟨a, e, i, Om, w, f⟩).1 =
      add (mult (Real.cos (w + f)) (pvec Om)) (mult (Real.sin (w + f)) (qvec Om i)) := by
    rw [rvIr, hR, elem2rv_decomp mu a e i Om w f he1]
    dsimp only
    rw [mult_add, mult_mult, mult_mult]
    have h1 : 1 / (a * (1 - e * e) / (1 + e * Real.cos f)) *
        (a * (1 - e * e) / (1 + e * Real.cos f) * Real.cos (w + f)) = Real.cos (w + f) := by
      field_simp
      ring
    have h2 : 1 / (a * (1 - e * e) / (1 + e * Real.cos f)) *
        (a * (1 - e * e) / (1 + e * Real.cos f) * Real.sin (w + f)) = Real.sin (w + f) := by
      field_simp
      ring
    rw [h1, h2]
  refine ⟨?_, hE, ?_, ?_, ?_, ?_⟩
  · show rvA mu _ _ = a
    rw [rvA, if_pos haiabs, hAI, one_div_one_div]
  · show Real.arccos (rvFrame mu _ _).1.z = i
    rw [hIH]
    show Real.arccos (Real.cos i) = i
    exact Real.arccos_cos hi.1.le hi.2.le
  · show atan2 (rvFrame mu _ _).1.x (-(rvFrame mu _ _).1.y) = Om
    rw [hIH]
    show atan2 (Real.sin Om * Real.sin i) (-(-(Real.cos Om * Real.sin i))) = Om
    rw [neg_neg, mul_comm (Real.sin Om) (Real.sin i), mul_comm (Real.cos Om) (Real.sin i),
        atan2_scale hsi, atan2_cos_sin hΩ]
  · show atan2 (rvFrame mu _ _).2.1.z (rvFrame mu _ _).2.2.z = w
    rw [hIE, hIP]
    show atan2 (Real.cos w * (pvec Om).z + Real.sin w * (qvec Om i).z)
        (-Real.sin w * (pvec Om).z + Real.cos w * (qvec Om i).z) = w
    simp only [pvec, qvec]
    rw [show Real.cos w * 0 + Real.sin w * Real.sin i = Real.sin i * Real.sin w by ring,
        show -Real.sin w * 0 + Real.cos w * Real.sin i = Real.sin i * Real.cos w by ring,
        atan2_scale hsi, atan2_cos_sin hω]
  · show ∃ k : ℤ, rvAnom mu _ _ = f + 2 * Real.pi * k
    rw [rvAnom, if_neg hnotrect, hIE, hIH, hIR]
    rw [cross_combo, cross_pq, dot_mult_left, dot_wvec, mul_one,
        dot_combo (pvec Om) (qvec Om i) (dot_pvec Om) (dot_qvec Om i) (dot_pq Om i)]
    have hS1 := Real.sin_sq_add_cos_sq w
    have h1 : Real.cos w * Real.sin (w + f) - Real.sin w * Real.cos (w + f) = Real.sin f := by
      rw [Real.cos_add, Real.sin_add]
      linear_combination Real.sin f * hS1
    have h2 : Real.cos w * Real.cos (w + f) + Real.sin w * Real.sin (w + f) = Real.cos f := by
      rw [Real.cos_add, Real.sin_add]
      linear_combination Real.cos f * hS1
    rw [h1, h2]
    exact atan2_cos_sin_mod f

/-- Witness for (amended) C1 at `mu = 1` and the element set `elWit`
(`a = 1`, `e = 1/2`, `i = π/2`, `Ω = ω = f = 0`). -/
theorem c1_roundtrip_witness :
    (0 : ℝ) < 1 ∧ rvEps < elWit.e ∧ elWit.e ≠ 1 ∧
    rvEps ≤ Real.sqrt (1 * (elWit.a * (1 - elWit.e * elWit.e))) ∧
    rvEps < |1 / elWit.a| ∧ elWit.i ∈ Set.Ioo 0 Real.pi ∧
    elWit.Omega ∈ Set.Ioc (-Real.pi) Real.pi ∧
    elWit.omega ∈ Set.Ioc (-Real.pi) Real.pi ∧
    0 < 1 + elWit.e * Real.cos elWit.anom ∧
    ((rv2elem 1 (elem2rv 1 elWit).1 (elem2rv 1 elWit).2).a = elWit.a ∧
     (rv2elem 1 (elem2rv 1 elWit).1 (elem2rv 1 elWit).2).e = elWit.e ∧
     (rv2elem 1 (elem2rv 1 elWit).1 (elem2rv 1 elWit).2).i = elWit.i ∧
     (rv2elem 1 (elem2rv 1 elWit).1 (elem2rv 1 elWit).2).Omega = elWit.Omega ∧
     (rv2elem 1 (elem2rv 1 elWit).1 (elem2rv 1 elWit).2).omega = elWit.omega ∧
     ∃ k : ℤ, (rv2elem 1 (elem2rv 1 elWit).1 (elem2rv 1 elWit).2).anom =
       elWit.anom + 2 * Real.pi * k) := by
  have hπ := Real.pi_pos
  have h1 : rvEps < elWit.e := by
    simp only [elWit]
    norm_num [rvEps]
  have h2 : elWit.e ≠ 1 := by
    simp only [elWit]
    norm_num
  have h3 : rvEps ≤ Real.sqrt (1 * (elWit.a * (1 - elWit.e * elWit.e))) := by
    simp only [elWit]
    rw [show (1 : ℝ) * (1 * (1 - 1 / 2 * (1 / 2))) = 3 / 4 by norm_num]
    have : (rvEps : ℝ) ^ 2 ≤ 3 / 4 := by norm_num [rvEps]
    calc rvEps ≤ Real.sqrt (rvEps ^ 2) := by
          rw [Real.sqrt_sq (by norm_num [rvEps] : (0:ℝ) ≤ rvEps)]
      _ ≤ Real.sqrt (3 / 4) := Real.sqrt_le_sqrt this
  have h4 : rvEps < |1 / elWit.a| := by
    simp only [elWit]
    norm_num [rvEps]
  have h5 : elWit.i ∈ Set.Ioo 0 Real.pi := by
    simp only [elWit]
    constructor <;> [linarith; linarith]
  have h6 : elWit.Omega ∈ Set.Ioc (-Real.pi) Real.pi := by
    simp only [elWit]
    constructor <;> [linarith; linarith]
  have h7 : elWit.omega ∈ Set.Ioc (-Real.pi) Real.pi := by
    simp only [elWit]
    constructor <;> [linarith; linarith]
  have h8 : 0 < 1 + elWit.e * Real.cos elWit.anom := by
    simp only [elWit]
    rw [Real.cos_zero]
    norm_num
  exact ⟨one_pos, h1, h2, h3, h4, h5, h6, h7, h8,
    c1_roundtrip_amended 1 elWit one_pos h1 h2 h3 h4 h5 h6 h7 h8⟩

/-- Counterexample to C1 as stated: the element set `elPara` (`μ = 1`,
`a = 10^13`, `e = 1/2`, `i = π/2`) is non-degenerate in the claim's sense
(`0 < e < 1`, nonzero angular momentum, `0 < i < π`), yet its orbital
energy falls below the 1e-12 parabolic tolerance of `rv2elem`, which
therefore forces the recovered eccentricity to exactly `1 ≠ 1/2`. -/
theorem c1_roundtrip_counterexample :
    (0 : ℝ) < 1 ∧
    0 < elPara.e ∧ elPara.e < 1 ∧
    0 < elPara.i ∧ elPara.i < Real.pi ∧
    Real.sqrt (1 * (elPara.a * (1 - elPara.e * elPara.e))) ≠ 0 ∧
    (rv2elem 1 (elem2rv 1 elPara).1 (elem2rv 1 elPara).2).e ≠ elPara.e := by
  have hπ := Real.pi_pos
  have hAI := roundtrip_ai 1 1e13 (1 / 2) (Real.pi / 2) 0 0 0 one_pos (by norm_num)
    (by norm_num) (by rw [Real.cos_zero]; norm_num)
  have helo : elPara = (⟨1e13, 1 / 2, Real.pi / 2, 0, 0, 0⟩ : classicElements) := rfl
  refine ⟨one_pos, ?_, ?_, ?_, ?_, ?_, ?_⟩
  · simp only [elPara]
    norm_num
  · simp only [elPara]
    norm_num
  · simp only [elPara]
    linarith
  · simp only [elPara]
    linarith
  · simp only [elPara]
    have : (0 : ℝ) < 1 * (1e13 * (1 - 1 / 2 * (1 / 2))) := by norm_num
    exact ne_of_gt (Real.sqrt_pos.mpr this)
  · rw [helo]
    show rvE 1 _ _ ≠ _
    have hnle : ¬(rvEps < |rvAi 1
        (elem2rv 1 (⟨1e13, 1 / 2, Real.pi / 2, 0, 0, 0⟩ : classicElements)).1
        (elem2rv 1 (⟨1e13, 1 / 2, Real.pi / 2, 0, 0, 0⟩ : classicElements)).2|) := by
      rw [hAI, abs_of_pos (by norm_num : (0:ℝ) < 1 / 1e13)]
      norm_num [rvEps]
    rw [rvE, if_neg hnle]
    norm_num

/-- Claim C2 (amended): for `0 ≤ e < 1` the `M2E` loop terminates and
returns the Newton iterate (seeded at `E0 = M`) reached after the number of
updates it performed, and that number is at most **201**: the cap check
`++count > 200` runs only *after* `E1 -= dE`, so the forced stop on the
pass that exceeds the 200-iteration cap still applies one final update.
The analogous statement holds for `N2H` with `e > 1`. -/
theorem c2_newton_cap_amended :
    (∀ M e : ℝ, 0 ≤ e → e < 1 →
       M2E M e = some (kepIter M e (M2Ecount M e)) ∧ M2Ecount M e ≤ 201) ∧
    (∀ N e : ℝ, 1 < e →
       N2H N e = some (hypIter N e (N2Hcount N e)) ∧ N2Hcount N e ≤ 201) := by
  constructor
  · intro M e h0 h1
    obtain ⟨hv, hc⟩ := M2Eloop_spec M e 200 M (10 * 1e-13) 0 rfl
    refine ⟨?_, hc⟩
    rw [M2E, if_pos ⟨h0, h1⟩, M2Ecount, hv]
    norm_num
  · intro N e h1
    obtain ⟨hv, hc⟩ := N2Hloop_spec N e 200 N (10 * 1e-13) 0 rfl
    refine ⟨?_, hc⟩
    rw [N2H, if_pos h1, N2Hcount, hv]
    norm_num

/-- Witness for (amended) C2 at `M2E(1, 0)` and `N2H(300, 2)`. -/
theorem c2_newton_cap_witness :
    ((0 : ℝ) ≤ 0 ∧ (0 : ℝ) < 1 ∧
      M2E 1 0 = some (kepIter 1 0 (M2Ecount 1 0)) ∧ M2Ecount 1 0 ≤ 201) ∧
    ((1 : ℝ) < 2 ∧
      N2H 300 2 = some (hypIter 300 2 (N2Hcount 300 2)) ∧ N2Hcount 300 2 ≤ 201) := by
  refine ⟨⟨le_refl 0, one_pos, ?_⟩, ⟨by norm_num, ?_⟩⟩
  · exact c2_newton_cap_amended.1 1 0 (le_refl 0) one_pos
  · exact c2_newton_cap_amended.2 300 2 (by norm_num)

/-- Counterexample to C2 as stated: on the valid input `N = 300`, `e = 2`
(a slow Newton region where each correction is about 1), the `N2H` loop
performs `201` updates `H1 -= dH` — more than the 200 claimed — before the
forced stop. -/
theorem c2_newton_cap_counterexample :
    (1 : ℝ) < 2 ∧ N2Hcount 300 2 = 201 ∧ 200 < N2Hcount 300 2 := by
  have h : N2Hcount 300 2 = 201 := by
    rw [N2Hcount]
    have h35 : (35 : ℝ) + ((200 : ℕ) : ℝ) ≤ 300 := by norm_num
    have habs : (1e-13 : ℝ) < |10 * 1e-13| := by
      rw [abs_of_nonneg (by norm_num : (0:ℝ) ≤ 10 * 1e-13)]
      norm_num
    exact n2h_loop_full 200 300 (10 * 1e-13) h35 (by norm_num) habs
  exact ⟨by norm_num, h, by omega⟩

/-- Claim C7: every anomaly-conversion function returns the `NAN` sentinel
(`none`) exactly when the eccentricity falls outside its valid domain —
`e < 0` or `e ≥ 1` for the elliptic family `E2f`, `f2E`, `E2M`, `M2E`, and
`e ≤ 1` for the hyperbolic family `f2H`, `H2f`, `H2N`, `N2H`; the functions
are total (never abort).  In particular `E2f Ecc 1.5 = none` for every
`Ecc`. -/
theorem c7_domain_sentinel (x e : ℝ) :
    (E2f x e = none ↔ e < 0 ∨ 1 ≤ e) ∧
    (f2E x e = none ↔ e < 0 ∨ 1 ≤ e) ∧
    (E2M x e = none ↔ e < 0 ∨ 1 ≤ e) ∧
    (M2E x e = none ↔ e < 0 ∨ 1 ≤ e) ∧
    (f2H x e = none ↔ e ≤ 1) ∧
    (H2f x e = none ↔ e ≤ 1) ∧
    (H2N x e = none ↔ e ≤ 1) ∧
    (N2H x e = none ↔ e ≤ 1) ∧
    E2f x 1.5 = none := by
  have hell : (e < 0 ∨ 1 ≤ e) ↔ ¬(0 ≤ e ∧ e < 1) := by
    rw [not_and_or, not_le, not_lt]
  have hhyp : e ≤ 1 ↔ ¬(1 < e) := (not_lt).symm
  refine ⟨?_, ?_, ?_, ?_, ?_, ?_, ?_, ?_, ?_⟩
  · rw [hell]; unfold E2f; split_ifs with h <;> simp [h]
  · rw [hell]; unfold f2E; split_ifs with h <;> simp [h]
  · rw [hell]; unfold E2M; split_ifs with h <;> simp [h]
  · rw [hell]; unfold M2E; split_ifs with h <;> simp [h]
  · rw [hhyp]; unfold f2H; split_ifs with h <;> simp [h]
  · rw [hhyp]; unfold H2f; split_ifs with h <;> simp [h]
  · rw [hhyp]; unfold H2N; split_ifs with h <;> simp [h]
  · rw [hhyp]; unfold N2H; split_ifs with h <;> simp [h]
  · unfold E2f
    rw [if_neg (by norm_num)]

/-- Claim C6: for `0 ≤ e < 1` and `−2π < Ecc < 2π`, the half-angle atan2
conversions satisfy `f2E (E2f Ecc e) e = Ecc` exactly over the real-number
embedding (in particular the round trip recovers `Ecc` modulo `2π`). -/
theorem c6_anomaly_roundtrip (e Ecc : ℝ) (h0 : 0 ≤ e) (h1 : e < 1)
    (hl : -(2 * Real.pi) < Ecc) (hu : Ecc < 2 * Real.pi) :
    (E2f Ecc e).bind (fun f => f2E f e) = some Ecc := by
  rw [E2f, if_pos ⟨h0, h1⟩, Option.some_bind, f2E, if_pos ⟨h0, h1⟩]
  congr 1
  set α := Real.sqrt (1 + e) with hαdef
  set β := Real.sqrt (1 - e) with hβdef
  set s := Real.sin (Ecc / 2) with hsdef
  set c := Real.cos (Ecc / 2) with hcdef
  set φ := atan2 (α * s) (β * c) with hφdef
  have hhalf : 2 * φ / 2 = φ := by ring
  rw [hhalf]
  have hα : 0 < α := Real.sqrt_pos.mpr (by linarith)
  have hβ : 0 < β := Real.sqrt_pos.mpr (by linarith)
  have hα2 : α ^ 2 = 1 + e := Real.sq_sqrt (by linarith)
  have hβ2 : β ^ 2 = 1 - e := Real.sq_sqrt (by linarith)
  have hsc : s ^ 2 + c ^ 2 = 1 := by
    rw [hsdef, hcdef]; exact Real.sin_sq_add_cos_sq (Ecc / 2)
  set z : ℂ := ((β * c : ℝ) : ℂ) + ((α * s : ℝ) : ℂ) * Complex.I with hzdef
  have hzre : z.re = β * c := by simp [hzdef]
  have hzim : z.im = α * s := by simp [hzdef]
  have hcosE : Real.cos Ecc = c ^ 2 - s ^ 2 := by
    have h2 : Real.cos (2 * (Ecc / 2)) = 2 * Real.cos (Ecc / 2) ^ 2 - 1 :=
      Real.cos_two_mul (Ecc / 2)
    rw [show (2 : ℝ) * (Ecc / 2) = Ecc by ring] at h2
    rw [hcdef, hsdef, h2]
    have := Real.sin_sq_add_cos_sq (Ecc / 2)
    linarith [this]
  have habs2 : Complex.abs z ^ 2 = 1 - e * Real.cos Ecc := by
    rw [Complex.sq_abs, Complex.normSq_apply, hzre, hzim, hcosE]
    linear_combination c ^ 2 * hβ2 + s ^ 2 * hα2 + hsc
  have hpos : (0 : ℝ) < 1 - e * Real.cos Ecc := by
    nlinarith [Real.cos_le_one Ecc, Real.neg_one_le_cos Ecc]
  have habs_pos : 0 < Complex.abs z := by
    rcases lt_or_eq_of_le (AbsoluteValue.nonneg Complex.abs z) with h | h
    · exact h
    · exfalso
      rw [← h] at habs2
      nlinarith [habs2]
  have hz0 : z ≠ 0 := by
    intro h
    rw [h] at habs_pos
    simp at habs_pos
  have hφarg : φ = Complex.arg z := by rw [hφdef, atan2, hzdef]
  have hcosφ : Real.cos φ = β * c / Complex.abs z := by
    rw [hφarg, Complex.cos_arg hz0, hzre]
  have hsinφ : Real.sin φ = α * s / Complex.abs z := by
    rw [hφarg, Complex.sin_arg, hzim]
  rw [hsinφ, hcosφ,
      show β * (α * s / Complex.abs z) = α * β / Complex.abs z * s by ring,
      show α * (β * c / Complex.abs z) = α * β / Complex.abs z * c by ring,
      atan2_scale (by positivity) s c]
  have hmem : Ecc / 2 ∈ Set.Ioc (-Real.pi) Real.pi :=
    ⟨by linarith, by linarith⟩
  rw [hsdef, hcdef, atan2_cos_sin hmem]
  ring

/-- Witness for C6 at `e = 0`, `Ecc = 0`. -/
theorem c6_anomaly_roundtrip_witness :
    (0 : ℝ) ≤ 0 ∧ (0 : ℝ) < 1 ∧ -(2 * Real.pi) < 0 ∧ (0 : ℝ) < 2 * Real.pi ∧
    (E2f 0 0).bind (fun f => f2E f 0) = some 0 := by
  have h2π : (0 : ℝ) < 2 * Real.pi := Real.two_pi_pos
  exact ⟨le_refl 0, one_pos, by linarith, h2π,
    c6_anomaly_roundtrip 0 0 (le_refl 0) one_pos (by linarith) h2π⟩

/-- Claim C4: for a position of nonzero norm, `JPerturb` is NaN-filled
(`none`) exactly for degree outside `[2, 6]`; degree 2 is the single
closed-form `J2` term, and each degree `3..6` equals the previous degree
plus exactly one additional closed-form zonal term. -/
theorem c4_jperturb_accumulation (rvec : Vec3) (num : ℤ) (hr : norm rvec ≠ 0) :
    (JPerturb rvec num = none ↔ num < 2 ∨ 6 < num) ∧
    JPerturb rvec 2 = some (jTerm2 rvec) ∧
    JPerturb rvec 3 = Option.map (fun w => add w (jTerm3 rvec)) (JPerturb rvec 2) ∧
    JPerturb rvec 4 = Option.map (fun w => add w (jTerm4 rvec)) (JPerturb rvec 3) ∧
    JPerturb rvec 5 = Option.map (fun w => add w (jTerm5 rvec)) (JPerturb rvec 4) ∧
    JPerturb rvec 6 = Option.map (fun w => add w (jTerm6 rvec)) (JPerturb rvec 5) := by
  refine ⟨?_, ?_, ?_, ?_, ?_, ?_⟩
  · unfold JPerturb; split_ifs with h <;> simp [h]
  · unfold JPerturb; norm_num
  · unfold JPerturb; norm_num
  · unfold JPerturb; norm_num
  · unfold JPerturb; norm_num
  · unfold JPerturb; norm_num

/-- Witness for C4 at the concrete input `rvec = (1, 0, 0)`, `num = 2`. -/
theorem c4_jperturb_witness :
    norm (⟨1, 0, 0⟩ : Vec3) ≠ 0 ∧
    JPerturb ⟨1, 0, 0⟩ 2 = some (jTerm2 ⟨1, 0, 0⟩) := by
  have h : norm (⟨1, 0, 0⟩ : Vec3) ≠ 0 := by
    have : dot (⟨1, 0, 0⟩ : Vec3) ⟨1, 0, 0⟩ = 1 := by norm_num [dot]
    rw [norm, this, Real.sqrt_one]
    exact one_ne_zero
  exact ⟨h, (c4_jperturb_accumulation ⟨1, 0, 0⟩ 2 h).2.1⟩

/-- Claim C5: for positive `Cd`, `A`, `m` and a nonzero velocity,
`AtmosphericDrag` is NaN-filled (`none`) iff the altitude `‖r‖ − R⊕` is
not positive; otherwise it is a negative multiple of the velocity whose
magnitude is `½·ρ(alt)·(Cd·A/m)·(1000·v)²/1000`. -/
theorem c5_atmospheric_drag (Cd A m : ℝ) (rvec vvec : Vec3)
    (hCd : 0 < Cd) (hA : 0 < A) (hm : 0 < m) (hv : vvec ≠ ⟨0, 0, 0⟩) :
    (AtmosphericDrag Cd A m rvec vvec = none ↔ norm rvec - REQ_EARTH ≤ 0) ∧
    (0 < norm rvec - REQ_EARTH →
      ∃ c : ℝ, c < 0 ∧
        AtmosphericDrag Cd A m rvec vvec = some (mult c vvec) ∧
        norm (mult c vvec) =
          1 / 2 * AtmosphericDensity (norm rvec - REQ_EARTH) * (Cd * A / m) *
            (1000 * norm vvec) ^ (2 : ℕ) / 1000) := by
  have hv0 : 0 < norm vvec := norm_pos_of_ne_zero hv
  constructor
  · by_cases h : norm rvec - REQ_EARTH ≤ 0 <;> simp [AtmosphericDrag, h]
  · intro halt
    have hnle : ¬(norm rvec - REQ_EARTH ≤ 0) := not_le.mpr halt
    have hρ0 : 0 < AtmosphericDensity (norm rvec - REQ_EARTH) := atmosphericDensity_pos _
    have h1 : 0 < AtmosphericDensity (norm rvec - REQ_EARTH) * (Cd * A / m) *
        (norm vvec * 1000) ^ (2 : ℕ) / 1000 / norm vvec := by positivity
    have hc : -0.5 * AtmosphericDensity (norm rvec - REQ_EARTH) * (Cd * A / m) *
        (norm vvec * 1000) ^ (2 : ℕ) / 1000 / norm vvec < 0 := by
      have heq : -0.5 * AtmosphericDensity (norm rvec - REQ_EARTH) * (Cd * A / m) *
          (norm vvec * 1000) ^ (2 : ℕ) / 1000 / norm vvec
          = -(0.5 * (AtmosphericDensity (norm rvec - REQ_EARTH) * (Cd * A / m) *
              (norm vvec * 1000) ^ (2 : ℕ) / 1000 / norm vvec)) := by ring
      rw [heq]
      apply neg_lt_zero.mpr
      linarith [h1]
    refine ⟨-0.5 * AtmosphericDensity (norm rvec - REQ_EARTH) * (Cd * A / m) *
        (norm vvec * 1000) ^ (2 : ℕ) / 1000 / norm vvec, hc, ?_, ?_⟩
    · simp only [AtmosphericDrag]
      rw [if_neg hnle]
    · rw [norm_mult, abs_of_neg hc]
      field_simp
      ring

/-- Witness for C5 at `Cd = A = m = 1`, `rvec = (0,0,0)`, `vvec = (1,0,0)`. -/
theorem c5_atmospheric_drag_witness :
    (0 : ℝ) < 1 ∧ (⟨1, 0, 0⟩ : Vec3) ≠ ⟨0, 0, 0⟩ ∧
    (AtmosphericDrag 1 1 1 ⟨0, 0, 0⟩ ⟨1, 0, 0⟩ = none ↔
      norm (⟨0, 0, 0⟩ : Vec3) - REQ_EARTH ≤ 0) := by
  have hv : (⟨1, 0, 0⟩ : Vec3) ≠ ⟨0, 0, 0⟩ := by
    simp [Vec3.mk.injEq]
  exact ⟨one_pos, hv,
    (c5_atmospheric_drag 1 1 1 ⟨0, 0, 0⟩ ⟨1, 0, 0⟩ one_pos one_pos one_pos hv).1⟩

/-- Claim C8: outside the rectilinear-elliptic regime, `elem2rv` computes
the semi-latus rectum as `2·(−a)` in the parabolic case (`e = 1, a < 0`)
and `a(1 − e²)` otherwise, then `r = p/(1 + e·cos f)`, `θ = ω + f`,
`h = √(μp)`, and writes the closed-form 3-1-3 position and velocity. -/
theorem c8_elem2rv_formulas (mu : ℝ) (el : classicElements) (hmu : 0 < mu)
    (hrect : ¬(el.e = 1 ∧ 0 < el.a)) :
    elem2rv mu el =
      (⟨(if el.e = 1 ∧ el.a < 0 then 2 * -el.a else el.a * (1 - el.e * el.e)) /
          (1 + el.e * Real.cos el.anom) *
          (Real.cos el.Omega * Real.cos (el.omega + el.anom) -
           Real.sin el.Omega * Real.sin (el.omega + el.anom) * Real.cos el.i),
        (if el.e = 1 ∧ el.a < 0 then 2 * -el.a else el.a * (1 - el.e * el.e)) /
          (1 + el.e * Real.cos el.anom) *
          (Real.sin el.Omega * Real.cos (el.omega + el.anom) +
           Real.cos el.Omega * Real.sin (el.omega + el.anom) * Real.cos el.i),
        (if el.e = 1 ∧ el.a < 0 then 2 * -el.a else el.a * (1 - el.e * el.e)) /
          (1 + el.e * Real.cos el.anom) *
          (Real.sin (el.omega + el.anom) * Real.sin el.i)⟩,
       ⟨-mu / Real.sqrt (mu *
            (if el.e = 1 ∧ el.a < 0 then 2 * -el.a else el.a * (1 - el.e * el.e))) *
          (Real.cos el.Omega * (Real.sin (el.omega + el.anom) + el.e * Real.sin el.omega) +
           Real.sin el.Omega * (Real.cos (el.omega + el.anom) + el.e * Real.cos el.omega) *
             Real.cos el.i),
        -mu / Real.sqrt (mu *
            (if el.e = 1 ∧ el.a < 0 then 2 * -el.a else el.a * (1 - el.e * el.e))) *
          (Real.sin el.Omega * (Real.sin (el.omega + el.anom) + el.e * Real.sin el.omega) -
           Real.cos el.Omega * (Real.cos (el.omega + el.anom) + el.e * Real.cos el.omega) *
             Real.cos el.i),
        -mu / Real.sqrt (mu *
            (if el.e = 1 ∧ el.a < 0 then 2 * -el.a else el.a * (1 - el.e * el.e))) *
          (-(Real.cos (el.omega + el.anom) + el.e * Real.cos el.omega) * Real.sin el.i)⟩) := by
  simp only [elem2rv]
  rw [if_neg hrect]

/-- Witness for C8 at `mu = 1` and the elliptic element set `elWit`. -/
theorem c8_elem2rv_witness :
    (0 : ℝ) < 1 ∧ ¬(elWit.e = 1 ∧ 0 < elWit.a) ∧
    elem2rv 1 elWit =
      (⟨(if elWit.e = 1 ∧ elWit.a < 0 then 2 * -elWit.a else elWit.a * (1 - elWit.e * elWit.e)) /
          (1 + elWit.e * Real.cos elWit.anom) *
          (Real.cos elWit.Omega * Real.cos (elWit.omega + elWit.anom) -
           Real.sin elWit.Omega * Real.sin (elWit.omega + elWit.anom) * Real.cos elWit.i),
        (if elWit.e = 1 ∧ elWit.a < 0 then 2 * -elWit.a else elWit.a * (1 - elWit.e * elWit.e)) /
          (1 + elWit.e * Real.cos elWit.anom) *
          (Real.sin elWit.Omega * Real.cos (elWit.omega + elWit.anom) +
           Real.cos elWit.Omega * Real.sin (elWit.omega + elWit.anom) * Real.cos elWit.i),
        (if elWit.e = 1 ∧ elWit.a < 0 then 2 * -elWit.a else elWit.a * (1 - elWit.e * elWit.e)) /
          (1 + elWit.e * Real.cos elWit.anom) *
          (Real.sin (elWit.omega + elWit.anom) * Real.sin elWit.i)⟩,
       ⟨-1 / Real.sqrt (1 *
            (if elWit.e = 1 ∧ elWit.a < 0 then 2 * -elWit.a else elWit.a * (1 - elWit.e * elWit.e))) *
          (Real.cos elWit.Omega * (Real.sin (elWit.omega + elWit.anom) + elWit.e * Real.sin elWit.omega) +
           Real.sin elWit.Omega * (Real.cos (elWit.omega + elWit.anom) + elWit.e * Real.cos elWit.omega) *
             Real.cos elWit.i),
        -1 / Real.sqrt (1 *
            (if elWit.e = 1 ∧ elWit.a < 0 then 2 * -elWit.a else elWit.a * (1 - elWit.e * elWit.e))) *
          (Real.sin elWit.Omega * (Real.sin (elWit.omega + elWit.anom) + elWit.e * Real.sin elWit.omega) -
           Real.cos elWit.Omega * (Real.cos (elWit.omega + elWit.anom) + elWit.e * Real.cos elWit.omega) *
             Real.cos elWit.i),
        -1 / Real.sqrt (1 *
            (if elWit.e = 1 ∧ elWit.a < 0 then 2 * -elWit.a else elWit.a * (1 - elWit.e * elWit.e))) *
          (-(Real.cos (elWit.omega + elWit.anom) + elWit.e * Real.cos elWit.omega) * Real.sin elWit.i)⟩) := by
  have h : ¬(elWit.e = 1 ∧ 0 < elWit.a) := by
    simp only [elWit]
    norm_num
  exact ⟨one_pos, h, c8_elem2rv_formulas 1 elWit one_pos h⟩

/-- Claim C9: with `r = ‖rVec‖ > 0`, `rv2elem` computes `ai = 2/r − v·v/μ`,
sets `a = 1/ai` when `|ai| > 1e-12`, and otherwise classifies the orbit
parabolic, overwriting `a` with `−(h²/μ)/2` and forcing `e` to exactly 1. -/
theorem c9_rv2elem_parabolic (mu : ℝ) (rVec vVec : Vec3) (hmu : 0 < mu)
    (hr : 0 < norm rVec) :
    rvAi mu rVec vVec = 2 / norm rVec - dot vVec vVec / mu ∧
    (rvEps < |rvAi mu rVec vVec| →
      (rv2elem mu rVec vVec).a = 1 / rvAi mu rVec vVec) ∧
    (|rvAi mu rVec vVec| ≤ rvEps →
      (rv2elem mu rVec vVec).a =
        -(norm (rvHvec rVec vVec) * norm (rvHvec rVec vVec) / mu / 2) ∧
      (rv2elem mu rVec vVec).e = 1) := by
  refine ⟨rfl, ?_, ?_⟩
  · intro h
    show rvA mu rVec vVec = _
    rw [rvA, if_pos h]
  · intro h
    have hn : ¬(rvEps < |rvAi mu rVec vVec|) := not_lt.mpr h
    constructor
    · show rvA mu rVec vVec = _
      rw [rvA, if_neg hn]
    · show rvE mu rVec vVec = _
      rw [rvE, if_neg hn]

/-- Witness for C9 at `mu = 1`, `rVec = (1,0,0)`, `vVec = (0,1,0)`. -/
theorem c9_rv2elem_witness :
    (0 : ℝ) < 1 ∧ 0 < norm (⟨1, 0, 0⟩ : Vec3) ∧
    rvAi 1 ⟨1, 0, 0⟩ ⟨0, 1, 0⟩ =
      2 / norm (⟨1, 0, 0⟩ : Vec3) - dot (⟨0, 1, 0⟩ : Vec3) ⟨0, 1, 0⟩ / 1 := by
  have hr : 0 < norm (⟨1, 0, 0⟩ : Vec3) := by
    have : dot (⟨1, 0, 0⟩ : Vec3) ⟨1, 0, 0⟩ = 1 := by norm_num [dot]
    rw [norm, this, Real.sqrt_one]
    exact one_pos
  exact ⟨one_pos, hr, (c9_rv2elem_parabolic 1 ⟨1, 0, 0⟩ ⟨0, 1, 0⟩ one_pos hr).1⟩

/-- Claim C3 (evidence of the out-of-bounds bug): at effective altitude
2000 km the break condition `X[i+1] > alt` of the `Debye` search never
fires, the loop leaves `i = 36`, and the interpolation reads `X[37]` and
`Y[37]` — one past the end of the 37-entry tables (`Option`-indexing
returns `none`, and the embedded interpolation yields `oob`). -/
theorem c3_debye_oob_read :
    debyeIndex 2000 = 36 ∧
    debyeX.get? (debyeIndex 2000 + 1) = none ∧
    debyeY.get? (debyeIndex 2000 + 1) = none ∧
    debyeInterp 2000 = DebyeResult.oob := by decide

/-- Claim C10 (evidence of the same bug, plus the intact branches): for
`2000 < alt ≤ 30000` the clamp to 2000 km sends `Debye` into the
out-of-bounds read instead of the flat table value (likewise at
`alt = 2000` exactly), while the extrapolation, NaN and interpolation
branches behave as the claim states. -/
theorem c10_debye_piecewise :
    Debye 2500 = DebyeResult.oob ∧
    Debye 2000 = DebyeResult.oob ∧
    Debye 31000 = DebyeResult.val 100.3 ∧
    Debye 100 = DebyeResult.nan ∧
    Debye 40000 = DebyeResult.nan ∧
    Debye 1000 = DebyeResult.val 1.59e-2 := by
  have hinterp : debyeInterp 2000 = DebyeResult.oob := by decide
  refine ⟨?_, ?_, ?_, ?_, ?_, ?_⟩
  · rw [Debye, if_pos (by norm_num)]
    exact hinterp
  · rw [Debye, if_neg (by norm_num), if_neg (by norm_num), if_neg (by norm_num)]
    exact hinterp
  · rw [Debye, if_neg (by norm_num), if_pos (by norm_num)]
    simp only [DebyeResult.val.injEq]
    norm_num
  · rw [Debye, if_neg (by norm_num), if_neg (by norm_num), if_pos (by norm_num)]
  · rw [Debye, if_neg (by norm_num), if_neg (by norm_num), if_pos (by norm_num)]
  · rw [Debye, if_neg (by norm_num), if_neg (by norm_num), if_neg (by norm_num)]
    have hidx : debyeIndex 1000 = 16 := by decide
    have hx16 : debyeX.get? 16 = some 1000 := rfl
    have hx17 : debyeX.get? 17 = some 1050 := rfl
    have hy16 : debyeY.get? 16 = some 1.59e-2 := rfl
    have hy17 : debyeY.get? 17 = some 1.75e-2 := rfl
    rw [debyeInterp]
    simp only [hidx, hx16, hx17, hy16, hy17]
    simp only [DebyeResult.val.injEq]
    norm_num

end OrbitalMotion
